import Mathlib

/-!
Shallow embedding of `tokenbucket-rs` (src/lib.rs) and verification of its
specification claims.

Modelling choices:
* `f64` fields (`r`, `b`, `tokens`, `count`) are modelled as exact rationals
  `ℚ`; the arithmetic the code performs (`+`, `-`, `*`, `/`, `min`, `>=`)
  is carried over exactly.
* `SystemTime` instants are modelled as natural-number wall-clock timestamps
  in milliseconds, since `acquire` observes time only through
  `duration_since(..).as_millis()`.
* `SystemTime::duration_since` returns `Err` when `now < last`; the code
  calls `.expect("clock went backwards")`, which panics.  A panicking call
  is modelled as `Option.none`.
* The diagnostic rate `(1f64 / duration_ms as f64) * 1000.0` is IEEE-754
  division: at `duration_ms = 0` it yields positive infinity.  `RateVal`
  represents this value exactly: `posInf` at zero duration, otherwise the
  finite rational `(1 / duration_ms) * 1000`.
-/

namespace TokenBucketRS

/-- Models the diagnostic rate value of type `f64` carried in the
`TokenAcquisitionResult`: either the finite rational value or the IEEE
positive infinity produced by dividing by a zero duration. -/
inductive RateVal where
  | posInf : RateVal
  | finite (q : ℚ) : RateVal
deriving Repr, DecidableEq

/-- Models `(1f64 / duration_ms as f64) * 1000.0` (src/lib.rs lines 160 and
163) under IEEE-754 semantics: `1/0.0 = +inf`, and `inf * 1000.0 = inf`. -/
def instRate (duration_ms : ℕ) : RateVal :=
  if duration_ms = 0 then RateVal.posInf
  else RateVal.finite ((1 / (duration_ms : ℚ)) * 1000)

/-- Embedding of `pub struct TokenBucket` (src/lib.rs lines 46-62).
`r` is the replenishment rate in tokens per second, `b` the burst
capacity, `tokens` the currently available tokens, and `last` the
timestamp (milliseconds) of the last successful acquisition. -/
structure TokenBucket where
  r : ℚ
  b : ℚ
  tokens : ℚ
  last : ℕ
deriving Repr, DecidableEq

/-- Embedding of `TokenBucket::new` (src/lib.rs lines 95-102): the bucket
starts full (`tokens = b`) with `last` set to the current time. -/
def TokenBucket.new (r b : ℚ) (now : ℕ) : TokenBucket :=
  { r := r, b := b, tokens := b, last := now }

/-- The replenishment expression of src/lib.rs lines 150-152:
`self.b.min(self.tokens + (self.r * duration_ms as f64) / 1000.0)`,
where `duration_ms = now - self.last` (in milliseconds). -/
def TokenBucket.postReplenish (self : TokenBucket) (now : ℕ) : ℚ :=
  min self.b (self.tokens + (self.r * ((now - self.last : ℕ) : ℚ)) / 1000)

/-- Embedding of `TokenBucket::acquire` (src/lib.rs lines 143-166).
`Option.none` models the panic of
`now.duration_since(self.last).expect("clock went backwards")` when the
clock reads earlier than `self.last`.  Otherwise the tokens are
replenished, the admission test `self.tokens >= count` runs on the
replenished value, and on admission `count` is deducted and `last`
advanced to `now`; on denial the replenished value is kept and `last` is
unchanged.  Both arms carry `instRate` of the elapsed milliseconds. -/
def TokenBucket.acquire (self : TokenBucket) (count : ℚ) (now : ℕ) :
    Option (Except RateVal RateVal × TokenBucket) :=
  if self.last ≤ now then
    if count ≤ self.postReplenish now then
      some (Except.ok (instRate (now - self.last)),
        { self with tokens := self.postReplenish now - count, last := now })
    else
      some (Except.error (instRate (now - self.last)),
        { self with tokens := self.postReplenish now })
  else
    none

deriving instance DecidableEq for Except

/-- Runs a sequence of `acquire` calls, each given as a pair
`(count, now)`; propagates a panic (`none`) of any call. -/
def runAcquires : TokenBucket → List (ℚ × ℕ) → Option TokenBucket
  | tb, [] => some tb
  | tb, (c, t) :: rest =>
    match tb.acquire c t with
    | none => none
    | some (_, tb2) => runAcquires tb2 rest

/-- The replenished token value never exceeds the burst capacity `b`:
it is produced by `min b _`. -/
theorem postReplenish_le_b (tb : TokenBucket) (now : ℕ) :
    tb.postReplenish now ≤ tb.b :=
  min_le_left _ _

/-- The replenished token value is non-negative whenever the current
tokens, the rate and the capacity are non-negative. -/
theorem postReplenish_nonneg (tb : TokenBucket) (now : ℕ)
    (hb : 0 ≤ tb.b) (ht : 0 ≤ tb.tokens) (hr : 0 ≤ tb.r) :
    0 ≤ tb.postReplenish now := by
  refine le_min hb ?_
  have hd : (0 : ℚ) ≤ (tb.r * ((now - tb.last : ℕ) : ℚ)) / 1000 := by positivity
  linarith

/-- Unfolding of `acquire` on the admitted branch. -/
theorem acquire_admit_eq (tb : TokenBucket) (c : ℚ) (now : ℕ)
    (hle : tb.last ≤ now) (hadm : c ≤ tb.postReplenish now) :
    tb.acquire c now = some (Except.ok (instRate (now - tb.last)),
      { tb with tokens := tb.postReplenish now - c, last := now }) := by
  simp [TokenBucket.acquire, hle, hadm]

/-- Unfolding of `acquire` on the denied branch. -/
theorem acquire_deny_eq (tb : TokenBucket) (c : ℚ) (now : ℕ)
    (hle : tb.last ≤ now) (hdeny : ¬ c ≤ tb.postReplenish now) :
    tb.acquire c now = some (Except.error (instRate (now - tb.last)),
      { tb with tokens := tb.postReplenish now }) := by
  simp [TokenBucket.acquire, hle, hdeny]

/-- Inversion: a non-panicking `acquire` call was either the admitted
branch or the denied branch, with the corresponding result and state. -/
theorem acquire_some_inv (tb : TokenBucket) (c : ℚ) (now : ℕ)
    (res : Except RateVal RateVal) (tb2 : TokenBucket)
    (h : tb.acquire c now = some (res, tb2)) :
    tb.last ≤ now ∧
    ((c ≤ tb.postReplenish now ∧ res = Except.ok (instRate (now - tb.last)) ∧
        tb2 = { tb with tokens := tb.postReplenish now - c, last := now }) ∨
      (¬ c ≤ tb.postReplenish now ∧ res = Except.error (instRate (now - tb.last)) ∧
        tb2 = { tb with tokens := tb.postReplenish now })) := by
  by_cases hle : tb.last ≤ now
  · by_cases hadm : c ≤ tb.postReplenish now
    · rw [acquire_admit_eq tb c now hle hadm] at h
      simp only [Option.some.injEq, Prod.mk.injEq] at h
      exact ⟨hle, Or.inl ⟨hadm, h.1.symm, h.2.symm⟩⟩
    · rw [acquire_deny_eq tb c now hle hadm] at h
      simp only [Option.some.injEq, Prod.mk.injEq] at h
      exact ⟨hle, Or.inr ⟨hadm, h.1.symm, h.2.symm⟩⟩
  · simp [TokenBucket.acquire, hle] at h

/-- A non-panicking `acquire` call never changes the configured rate or
capacity fields. -/
theorem acquire_preserves_config (tb : TokenBucket) (c : ℚ) (now : ℕ)
    (res : Except RateVal RateVal) (tb2 : TokenBucket)
    (h : tb.acquire c now = some (res, tb2)) :
    tb2.r = tb.r ∧ tb2.b = tb.b := by
  obtain ⟨-, hcase⟩ := acquire_some_inv tb c now res tb2 h
  rcases hcase with ⟨-, -, htb2⟩ | ⟨-, -, htb2⟩ <;> subst htb2 <;> exact ⟨rfl, rfl⟩

/-- Single-step invariant: with non-negative rate, capacity, tokens and
request, a non-panicking `acquire` leaves `0 ≤ tokens ≤ b` and keeps the
configuration. -/
theorem acquire_inv_step (tb : TokenBucket) (c : ℚ) (now : ℕ)
    (res : Except RateVal RateVal) (tb2 : TokenBucket)
    (hr : 0 ≤ tb.r) (hb : 0 ≤ tb.b) (ht : 0 ≤ tb.tokens) (hc : 0 ≤ c)
    (h : tb.acquire c now = some (res, tb2)) :
    0 ≤ tb2.tokens ∧ tb2.tokens ≤ tb.b ∧ tb2.r = tb.r ∧ tb2.b = tb.b := by
  obtain ⟨-, hcase⟩ := acquire_some_inv tb c now res tb2 h
  have hub := postReplenish_le_b tb now
  rcases hcase with ⟨hadm, -, htb2⟩ | ⟨hdeny, -, htb2⟩ <;> subst htb2
  · refine ⟨?_, ?_, rfl, rfl⟩
    · show 0 ≤ tb.postReplenish now - c
      linarith
    · show tb.postReplenish now - c ≤ tb.b
      linarith
  · exact ⟨postReplenish_nonneg tb now hb ht hr, hub, rfl, rfl⟩

/-- A non-panicking run of `acquire` calls never changes the capacity
field. -/
theorem runAcquires_b_eq :
    ∀ (l : List (ℚ × ℕ)) (tb tb2 : TokenBucket),
      runAcquires tb l = some tb2 → tb2.b = tb.b := by
  intro l
  induction l with
  | nil =>
    intro tb tb2 h
    simp only [runAcquires, Option.some.injEq] at h
    rw [← h]
  | cons p rest ih =>
    intro tb tb2 h
    rcases p with ⟨c, t⟩
    simp only [runAcquires] at h
    cases hacq : tb.acquire c t with
    | none => rw [hacq] at h; cases h
    | some x =>
      rcases x with ⟨res, tbm⟩
      rw [hacq] at h
      rw [ih tbm tb2 h, (acquire_preserves_config tb c t res tbm hacq).2]

/-- Run invariant: with non-negative rate and capacity, starting from
`0 ≤ tokens ≤ b`, any non-panicking run of non-negative requests keeps
`0 ≤ tokens ≤ b` and the capacity. -/
theorem runAcquires_inv :
    ∀ (l : List (ℚ × ℕ)) (tb tb2 : TokenBucket),
      0 ≤ tb.r → 0 ≤ tb.b → 0 ≤ tb.tokens → tb.tokens ≤ tb.b →
      (∀ p ∈ l, 0 ≤ p.1) → runAcquires tb l = some tb2 →
      0 ≤ tb2.tokens ∧ tb2.tokens ≤ tb2.b ∧ tb2.b = tb.b := by
  intro l
  induction l with
  | nil =>
    intro tb tb2 hr hb ht hub hcounts h
    simp only [runAcquires, Option.some.injEq] at h
    rw [← h]
    exact ⟨ht, hub, rfl⟩
  | cons p rest ih =>
    intro tb tb2 hr hb ht hub hcounts h
    rcases p with ⟨c, t⟩
    simp only [runAcquires] at h
    cases hacq : tb.acquire c t with
    | none => rw [hacq] at h; cases h
    | some x =>
      rcases x with ⟨res, tbm⟩
      rw [hacq] at h
      have hc : 0 ≤ c := hcounts (c, t) (List.mem_cons_self _ _)
      obtain ⟨h0, h1, hrEq, hbEq⟩ :=
        acquire_inv_step tb c t res tbm hr hb ht hc hacq
      have hcounts2 : ∀ p ∈ rest, 0 ≤ p.1 := fun p hp =>
        hcounts p (List.mem_cons_of_mem _ hp)
      obtain ⟨g0, g1, gb⟩ := ih tbm tb2 (hrEq ▸ hr) (hbEq ▸ hb) h0
        (hbEq ▸ h1) hcounts2 h
      exact ⟨g0, g1, gb.trans hbEq⟩

/-- C1 (amended): for every bucket constructed by `new(rate, capacity)` with
`rate > 0` and `capacity > 0`, and every non-panicking sequence of
`acquire(count)` calls with non-negative counts, the invariant
`0 ≤ tokens ≤ capacity` holds after every call. -/
theorem C1_tokens_bounded (r b : ℚ) (t0 : ℕ) (l : List (ℚ × ℕ))
    (tb : TokenBucket) (hr : 0 < r) (hb : 0 < b)
    (hcounts : ∀ p ∈ l, 0 ≤ p.1)
    (hrun : runAcquires (TokenBucket.new r b t0) l = some tb) :
    0 ≤ tb.tokens ∧ tb.tokens ≤ b := by
  obtain ⟨h0, h1, hbEq⟩ := runAcquires_inv l (TokenBucket.new r b t0) tb
    hr.le hb.le hb.le (le_refl b) hcounts hrun
  have hbEq2 : tb.b = b := by simpa [TokenBucket.new] using hbEq
  exact ⟨h0, hbEq2 ▸ h1⟩

/-- C1 counterexample: on the bucket `new(1, 1)` (rate 1 > 0,
capacity 1 > 0), the single call `acquire(-1)` completes and leaves
`tokens = 2`, which exceeds the capacity 1: the invariant
`tokens ≤ capacity` fails for sequences with negative counts. -/
theorem C1_counterexample :
    runAcquires (TokenBucket.new 1 1 0) [(-1, 0)] =
      some { r := 1, b := 1, tokens := 2, last := 0 } ∧ ¬ ((2 : ℚ) ≤ 1) := by
  constructor
  · norm_num [runAcquires, TokenBucket.acquire, TokenBucket.new,
      TokenBucket.postReplenish, instRate]
  · norm_num

/-- C1 witness at `new(1, 1)` and the sequence `[acquire(1)]`. -/
theorem C1_witness :
    0 ≤ ({ r := 1, b := 1, tokens := 0, last := 0 } : TokenBucket).tokens ∧
      ({ r := 1, b := 1, tokens := 0, last := 0 } : TokenBucket).tokens ≤ 1 :=
  C1_tokens_bounded 1 1 0 [(1, 0)] _ (by norm_num) (by norm_num)
    (by rintro p hp; simp only [List.mem_singleton] at hp; subst hp; norm_num)
    (by norm_num [runAcquires, TokenBucket.acquire, TokenBucket.new,
      TokenBucket.postReplenish, instRate])

/-- C2 (amended): when the clock reads a time `now` earlier than
`lastUpdate`, `acquire` panics (the `expect` on `duration_since`,
modelled as `none`); the elapsed time is not clamped to zero and the
call does not complete normally. -/
theorem C2_backwards_clock_panics (tb : TokenBucket) (c : ℚ) (now : ℕ)
    (h : now < tb.last) : tb.acquire c now = none := by
  unfold TokenBucket.acquire
  rw [if_neg (not_le.mpr h)]

/-- C2 counterexample: with `lastUpdate = 5` and the clock reading
`now = 3 < 5`, `acquire(1)` panics (returns `none`) instead of completing
normally with the elapsed time clamped to zero. -/
theorem C2_counterexample :
    (3 : ℕ) < 5 ∧
      ({ r := 1, b := 1, tokens := 1, last := 5 } : TokenBucket).acquire 1 3 =
        none := by
  constructor
  · norm_num
  · norm_num [TokenBucket.acquire]

/-- C2 witness at a bucket with `lastUpdate = 7` and clock reading 2. -/
theorem C2_witness :
    ({ r := 2, b := 5, tokens := 3, last := 7 } : TokenBucket).acquire 1 2 =
      none :=
  C2_backwards_clock_panics { r := 2, b := 5, tokens := 3, last := 7 } 1 2
    (by norm_num)

/-- The amount withdrawn by an `acquire` call given its result: `count` on
the success arm (src/lib.rs line 158), nothing on the failure arm. -/
def deducted (res : Except RateVal RateVal) (c : ℚ) : ℚ :=
  match res with
  | Except.ok _ => c
  | Except.error _ => 0

/-- C4: every non-panicking `acquire` first replenishes `tokens` to exactly
`min(capacity, tokens + rate * elapsed)`, where `elapsed` is the
non-negative wall-clock time in seconds since `lastUpdate`
(`(now - last) / 1000` with millisecond timestamps), and subtracts `count`
exactly when admitted; in particular a denied call, which withdraws
nothing, leaves `tokens` at that clamped replenished value. -/
theorem C4_replenish_formula (tb : TokenBucket) (c : ℚ) (now : ℕ)
    (res : Except RateVal RateVal) (tb2 : TokenBucket)
    (h : tb.acquire c now = some (res, tb2)) :
    tb2.tokens =
      min tb.b (tb.tokens + tb.r * (((now - tb.last : ℕ) : ℚ) / 1000)) -
        deducted res c := by
  obtain ⟨-, hcase⟩ := acquire_some_inv tb c now res tb2 h
  have hpost : tb.postReplenish now =
      min tb.b (tb.tokens + tb.r * (((now - tb.last : ℕ) : ℚ) / 1000)) := by
    unfold TokenBucket.postReplenish
    rw [mul_div_assoc]
  rcases hcase with ⟨-, hres, htb2⟩ | ⟨-, hres, htb2⟩ <;> subst htb2 <;> subst hres
  · show tb.postReplenish now - c = _
    rw [hpost, deducted]
  · show tb.postReplenish now = _
    rw [hpost, deducted]
    ring

/-- C4 witness: a denied call on `{r := 2, b := 10, tokens := 1}` after 500
elapsed milliseconds replenishes to `min(10, 1 + 2 * 0.5) = 2`. -/
theorem C4_witness :
    ({ r := 2, b := 10, tokens := 2, last := 0 } : TokenBucket).tokens =
      min (10 : ℚ) (1 + 2 * (((500 - 0 : ℕ) : ℚ) / 1000)) - 0 :=
  C4_replenish_formula { r := 2, b := 10, tokens := 1, last := 0 } 100 500
    (Except.error (instRate 500)) { r := 2, b := 10, tokens := 2, last := 0 }
    (by norm_num [TokenBucket.acquire, TokenBucket.postReplenish, instRate])

/-- C5: when `acquire` returns the failure outcome, `count` is not deducted
and the replenishment computed from the elapsed time is nevertheless
committed to `tokens`, while `lastUpdate` is not advanced. -/
theorem C5_denied_state (tb : TokenBucket) (c : ℚ) (now : ℕ)
    (rv : RateVal) (tb2 : TokenBucket)
    (h : tb.acquire c now = some (Except.error rv, tb2)) :
    tb2.tokens =
        min tb.b (tb.tokens + tb.r * (((now - tb.last : ℕ) : ℚ) / 1000)) ∧
      tb2.last = tb.last := by
  obtain ⟨-, hcase⟩ := acquire_some_inv tb c now _ tb2 h
  rcases hcase with ⟨-, hres, -⟩ | ⟨-, -, htb2⟩
  · simp at hres
  · subst htb2
    refine ⟨?_, rfl⟩
    show tb.postReplenish now = _
    unfold TokenBucket.postReplenish
    rw [mul_div_assoc]

/-- C5 witness: `acquire(2)` denied on a full `new(1, 1)` bucket at zero
elapsed time commits the (clamped) replenishment and keeps `last = 0`. -/
theorem C5_witness :
    ({ r := 1, b := 1, tokens := 1, last := 0 } : TokenBucket).tokens =
        min (1 : ℚ) (1 + 1 * (((0 - 0 : ℕ) : ℚ) / 1000)) ∧
      (0 : ℕ) = 0 :=
  C5_denied_state { r := 1, b := 1, tokens := 1, last := 0 } 2 0
    RateVal.posInf { r := 1, b := 1, tokens := 1, last := 0 }
    (by norm_num [TokenBucket.acquire, TokenBucket.postReplenish, instRate])

/-- C6: from any bucket constructed with `capacity > 0`, after any
non-panicking sequence of `acquire` calls with any elapsed times, a request
for `count > capacity` is never admitted, since replenishment is capped at
the capacity. -/
theorem C6_overdraft_rejected (r b : ℚ) (t0 : ℕ) (l : List (ℚ × ℕ))
    (tb tb2 : TokenBucket) (c : ℚ) (now : ℕ)
    (res : Except RateVal RateVal)
    (hb : 0 < b) (hc : b < c)
    (hrun : runAcquires (TokenBucket.new r b t0) l = some tb)
    (hacq : tb.acquire c now = some (res, tb2)) :
    ∃ rv, res = Except.error rv := by
  have hbEq : tb.b = b := by
    simpa [TokenBucket.new] using
      runAcquires_b_eq l (TokenBucket.new r b t0) tb hrun
  obtain ⟨-, hcase⟩ := acquire_some_inv tb c now res tb2 hacq
  rcases hcase with ⟨hadm, -, -⟩ | ⟨-, hres, -⟩
  · exfalso
    have hub := postReplenish_le_b tb now
    rw [hbEq] at hub
    linarith
  · exact ⟨_, hres⟩

/-- C6 witness: scenario C of the spec, `new(1, 1)` then `acquire(2)`. -/
theorem C6_witness :
    ∃ rv, (Except.error RateVal.posInf : Except RateVal RateVal) =
      Except.error rv :=
  C6_overdraft_rejected 1 1 0 [] (TokenBucket.new 1 1 0)
    { r := 1, b := 1, tokens := 1, last := 0 } 2 0
    (Except.error RateVal.posInf) (by norm_num) (by norm_num) rfl
    (by norm_num [TokenBucket.acquire, TokenBucket.new,
      TokenBucket.postReplenish, instRate])

/-- C7: when an `acquire(count)` call is admitted, the resulting `tokens`
equals the post-replenishment value minus exactly `count`. -/
theorem C7_conservation (tb : TokenBucket) (c : ℚ) (now : ℕ)
    (rv : RateVal) (tb2 : TokenBucket)
    (h : tb.acquire c now = some (Except.ok rv, tb2)) :
    tb2.tokens =
      min tb.b (tb.tokens + tb.r * (((now - tb.last : ℕ) : ℚ) / 1000)) - c := by
  obtain ⟨-, hcase⟩ := acquire_some_inv tb c now _ tb2 h
  rcases hcase with ⟨-, -, htb2⟩ | ⟨-, hres, -⟩
  · subst htb2
    show tb.postReplenish now - c = _
    unfold TokenBucket.postReplenish
    rw [mul_div_assoc]
  · simp at hres

/-- C7 witness: `new(1, 1)` admits `acquire(1)` at zero elapsed time and
leaves `tokens = min(1, 1 + 0) - 1 = 0`. -/
theorem C7_witness :
    ({ r := 1, b := 1, tokens := 0, last := 0 } : TokenBucket).tokens =
      min (1 : ℚ) (1 + 1 * (((0 - 0 : ℕ) : ℚ) / 1000)) - 1 :=
  C7_conservation (TokenBucket.new 1 1 0) 1 0 RateVal.posInf
    { r := 1, b := 1, tokens := 0, last := 0 }
    (by norm_num [TokenBucket.acquire, TokenBucket.new,
      TokenBucket.postReplenish, instRate])

/-- C8: `new(rate, capacity)` initializes `tokens = capacity` and
`lastUpdate = now`, and a first `acquire(count)` with `0 < count ≤ capacity`
issued at zero elapsed time is admitted. -/
theorem C8_initial_fullness (r b c : ℚ) (now : ℕ)
    (hr : 0 < r) (hb : 0 < b) (hc0 : 0 < c) (hcb : c ≤ b) :
    (TokenBucket.new r b now).tokens = b ∧
      (TokenBucket.new r b now).last = now ∧
      ∃ rv tb2,
        (TokenBucket.new r b now).acquire c now = some (Except.ok rv, tb2) := by
  have hpost : (TokenBucket.new r b now).postReplenish now = b := by
    simp [TokenBucket.postReplenish, TokenBucket.new]
  have hadm : c ≤ (TokenBucket.new r b now).postReplenish now := by
    rw [hpost]; exact hcb
  exact ⟨rfl, rfl, _, _, acquire_admit_eq _ c now (le_refl now) hadm⟩

/-- C8 witness at `new(1, 1)` with `acquire(1)`. -/
theorem C8_witness :
    (TokenBucket.new 1 1 0).tokens = 1 ∧
      (TokenBucket.new 1 1 0).last = 0 ∧
      ∃ rv tb2,
        (TokenBucket.new 1 1 0).acquire 1 0 = some (Except.ok rv, tb2) :=
  C8_initial_fullness 1 1 1 0 (by norm_num) (by norm_num) (by norm_num)
    (by norm_num)

/-- C10: on any bucket with non-negative `tokens` (and the non-negative
rate and capacity of any `new`-constructed bucket), a non-panicking
`acquire(count)` with `count < 0` is always admitted and sets `tokens` to
the post-replenishment value minus `count` (an increase by `-count`,
applied after the capacity cap); concretely, `new(1, 1)` with `acquire(-1)`
leaves `tokens = 2`, strictly above the capacity 1. -/
theorem C10_negative_count (tb : TokenBucket) (c : ℚ) (now : ℕ)
    (hb : 0 ≤ tb.b) (hr : 0 ≤ tb.r) (ht : 0 ≤ tb.tokens) (hc : c < 0)
    (hle : tb.last ≤ now) :
    (∃ rv tb2, tb.acquire c now = some (Except.ok rv, tb2) ∧
        tb2.tokens =
          min tb.b (tb.tokens + tb.r * (((now - tb.last : ℕ) : ℚ) / 1000)) - c) ∧
      ∃ tb3, (TokenBucket.new 1 1 0).acquire (-1) 0 =
          some (Except.ok RateVal.posInf, tb3) ∧ tb3.b < tb3.tokens := by
  constructor
  · have hadm : c ≤ tb.postReplenish now :=
      le_of_lt (lt_of_lt_of_le hc (postReplenish_nonneg tb now hb ht hr))
    refine ⟨_, _, acquire_admit_eq tb c now hle hadm, ?_⟩
    show tb.postReplenish now - c = _
    unfold TokenBucket.postReplenish
    rw [mul_div_assoc]
  · refine ⟨{ r := 1, b := 1, tokens := 2, last := 0 }, ?_, by norm_num⟩
    norm_num [TokenBucket.acquire, TokenBucket.new, TokenBucket.postReplenish,
      instRate]

/-- C10 witness at `{r := 1, b := 1, tokens := 0}` with `acquire(-2)`. -/
theorem C10_witness :
    (∃ rv tb2,
        ({ r := 1, b := 1, tokens := 0, last := 0 } : TokenBucket).acquire
            (-2) 0 = some (Except.ok rv, tb2) ∧
        tb2.tokens =
          min (1 : ℚ) (0 + 1 * (((0 - 0 : ℕ) : ℚ) / 1000)) - (-2)) ∧
      ∃ tb3, (TokenBucket.new 1 1 0).acquire (-1) 0 =
          some (Except.ok RateVal.posInf, tb3) ∧ tb3.b < tb3.tokens :=
  C10_negative_count { r := 1, b := 1, tokens := 0, last := 0 } (-2) 0
    (by norm_num) (by norm_num) (by norm_num) (by norm_num) (le_refl 0)

end TokenBucketRS
